import Mathlib

/-!
Verification development for the conversational core of the `potus` coding
assistant (Go).  The Go sources are shallowly embedded: pure functions become
Lean functions, Go `int` becomes `Int` (or `Nat` where the source value is a
count that is provably non-negative), Go `float64` quantities (budget
thresholds, prices, usage percentages) are modelled as exact rationals `ℚ`,
and Go strings become Lean `String` with `len(s)` rendered as
`String.utf8ByteSize` (Go string length counts UTF-8 bytes).  Stateful
streaming loops are modelled as functions from the list of decoded wire
chunks (plus an optional trailing transport read error, mirroring
`bufio.Scanner.Err`) to the list of emitted events.  The agent loop is
modelled as a small-step transition relation over memory states.
-/

deriving instance DecidableEq for Except

attribute [local semireducible] Rat.add Rat.mul Rat.inv Rat.sub

namespace Potus

/-- Message roles, from `providers.MessageRole` (provider.go). -/
inductive MessageRole
  | user
  | assistant
  | systemRole
  | tool
deriving DecidableEq, Repr

/-- Content blocks, from the `providers.ContentBlock` interface and its four
implementations (provider.go).  `ToolUseContent.Input` is a
`map[string]interface{}` in Go which the estimator serializes with
`json.Marshal`; here the input is embedded as its JSON serialization
(`none` for a Go `nil` map). -/
inductive ContentBlock
  | text (text : String)
  | image (mediaType data : String)
  | toolUse (id name : String) (inputJSON : Option String)
  | toolResult (toolUseId content : String) (isError : Bool)
deriving DecidableEq, Repr

/-- A message, from `providers.Message` (provider.go). -/
structure Message where
  role : MessageRole
  content : List ContentBlock
deriving DecidableEq, Repr

/-- Per-message token index entry, from `context.TokenInfo` (token.go).
The `Timestamp` field is omitted: `agent.Memory` never sets it and no claim
mentions it. -/
structure TokenInfo where
  messageIndex : Int
  tokens : Int
  role : MessageRole
  isPrunable : Bool
  toolName : String
  toolUseId : String
deriving DecidableEq, Repr

/-! ## Token estimator (`context.SimpleEstimator`, token.go)

`EstimateTokens` is `int(float64(len(text)) / 4.0)`; `len` counts UTF-8
bytes and the truncation of a non-negative quotient is floor, i.e. `Nat`
division by 4. -/

/-- `SimpleEstimator.EstimateTokens` (token.go). -/
def estimateTokens (text : String) : Nat :=
  text.utf8ByteSize / 4

/-- The loop body of `SimpleEstimator.EstimateMessage` (token.go): add one
block's cost to the running total, switching on the block kind. -/
def estimateStep (total : Nat) (block : ContentBlock) : Nat :=
  match block with
  | .text t => total + estimateTokens t
  | .toolUse _ name inputJSON =>
      total + 20 + estimateTokens name +
        (match inputJSON with
         | some j => estimateTokens j
         | none => 0)
  | .toolResult _ content _ => total + 10 + estimateTokens content
  | .image _ _ => total + 1500

/-- `SimpleEstimator.EstimateMessage` (token.go): base 4, then one pass over
the blocks, translated as a left fold mirroring the Go loop. -/
def estimateMessage (msg : Message) : Nat :=
  msg.content.foldl estimateStep 4

/-- `SimpleEstimator.EstimateMessages` (token.go). -/
def estimateMessages (msgs : List Message) : Nat :=
  (msgs.map estimateMessage).sum

/-- Per-block cost written from the spec sentence for the estimator
("base 4 tokens per message; ToolUse adds 20 plus the JSON-serialized input
tokens plus the name; ToolResult adds 10 plus content tokens; Image adds a
fixed 1500"), with the amended text cost counting UTF-8 bytes. -/
def specBlockCostBytes (block : ContentBlock) : Nat :=
  match block with
  | .text t => estimateTokens t
  | .toolUse _ name inputJSON =>
      20 + estimateTokens name +
        (match inputJSON with
         | some j => estimateTokens j
         | none => 0)
  | .toolResult _ content _ => 10 + estimateTokens content
  | .image _ _ => 1500

/-- Spec-side estimator with the amended byte-counting text cost:
`estimate(msg) = 4 + Σ specBlockCostBytes`. -/
def specEstimateMessageBytes (msg : Message) : Nat :=
  4 + (msg.content.map specBlockCostBytes).sum

/-- Text cost exactly as the claim words it: `⌊len_chars(s)/4⌋`, counting
characters (Unicode scalar values) of `s`. -/
def specEstimateTextChars (s : String) : Nat :=
  s.length / 4

/-- Per-block cost as the claim words it, with the character-counting text
cost function. -/
def specBlockCostChars (block : ContentBlock) : Nat :=
  match block with
  | .text t => specEstimateTextChars t
  | .toolUse _ name inputJSON =>
      20 + specEstimateTextChars name +
        (match inputJSON with
         | some j => specEstimateTextChars j
         | none => 0)
  | .toolResult _ content _ => 10 + specEstimateTextChars content
  | .image _ _ => 1500

/-- Spec-side estimator exactly as the claim words it (character counting). -/
def specEstimateMessageChars (msg : Message) : Nat :=
  4 + (msg.content.map specBlockCostChars).sum

/-! ## IEEE-754 binary64 arithmetic

`Budget.RecordUsage` accumulates the session cost in Go `float64`.  A
binary64 value is represented here by the rational it denotes exactly, and
each Go arithmetic operation is the exact rational operation followed by
IEEE round-to-nearest (ties to even), which is what binary64 `+`, `*`, `/`
and int-to-float conversion compute.  The rounding below handles the
normal range (all values appearing in cost accumulation at realistic
prices); overflow to infinity and subnormal underflow are outside the
values exercised and not modelled. -/

/-- Round a rational to an integer, ties to even — the significand
rounding step of IEEE round-to-nearest-even. -/
def roundHalfEven (q : ℚ) : Int :=
  let n := ⌊q⌋
  let frac := q - n
  if frac < 1/2 then n
  else if 1/2 < frac then n + 1
  else if n % 2 = 0 then n else n + 1

/-- Scale a positive rational into the binade `[2^52, 2^53)`, returning the
scaled significand and the base-2 exponent (value = sig · 2^e).  The fuel
bounds the scaling loop; 1300 steps cover the whole binary64 range and far
beyond. -/
def frexpAux : Nat → ℚ → Int → ℚ × Int
  | 0, q, e => (q, e)
  | fuel + 1, q, e =>
      if q < 2 ^ 52 then frexpAux fuel (q * 2) (e - 1)
      else if 2 ^ 53 ≤ q then frexpAux fuel (q / 2) (e + 1)
      else (q, e)

/-- IEEE-754 binary64 rounding (round to nearest, ties to even) of an
exact rational value, for values in the normal range; zero maps to zero. -/
def roundF (q : ℚ) : ℚ :=
  if q = 0 then 0
  else if 0 < q then
    ((roundHalfEven (frexpAux 1300 q 0).1 : ℚ) * 2 ^ (frexpAux 1300 q 0).2)
  else
    -((roundHalfEven (frexpAux 1300 (-q) 0).1 : ℚ) * 2 ^ (frexpAux 1300 (-q) 0).2)

/-- Go `float64` addition: exact sum, correctly rounded. -/
def floatAdd (a b : ℚ) : ℚ := roundF (a + b)

/-- Go `float64` multiplication: exact product, correctly rounded. -/
def floatMul (a b : ℚ) : ℚ := roundF (a * b)

/-- Go `float64` division: exact quotient, correctly rounded. -/
def floatDiv (a b : ℚ) : ℚ := roundF (a / b)

/-- Go `float64(n)` conversion of an integer: the integer value, rounded
to binary64 (exact for |n| ≤ 2^53). -/
def intToFloat (n : Int) : ℚ := roundF (n : ℚ)

/-! ## Budget (`context.Budget`, budget.go)

Go `float64` fields hold binary64 values, represented by the rationals
they denote; the cost accumulation of `RecordUsage` applies the IEEE
operations above.  The threshold comparisons of `GetSnapshot` are kept in
exact rational arithmetic: the claims that consult them do so only at
inputs where the float and exact comparisons agree. -/

/-- Mutable budget state, from `context.Budget` (budget.go). -/
structure Budget where
  maxTokens : Int
  reserveForResponse : Int
  modelContextSize : Int
  totalInputTokens : Int
  totalOutputTokens : Int
  sessionCost : ℚ
  inputPricePer1M : ℚ
  outputPricePer1M : ℚ
  warnThreshold : ℚ
  compactThreshold : ℚ
deriving DecidableEq, Repr

/-- `context.NewBudget` (budget.go): thresholds at or below zero default to
0.80 and 0.90. -/
def newBudget (maxTokens reserveForResponse modelContextSize : Int)
    (warnThreshold compactThreshold : ℚ) : Budget :=
  { maxTokens := maxTokens
    reserveForResponse := reserveForResponse
    modelContextSize := modelContextSize
    totalInputTokens := 0
    totalOutputTokens := 0
    sessionCost := 0
    inputPricePer1M := 0
    outputPricePer1M := 0
    warnThreshold := if warnThreshold ≤ 0 then 8/10 else warnThreshold
    compactThreshold := if compactThreshold ≤ 0 then 9/10 else compactThreshold }

/-- `Budget.SetPricing` (budget.go). -/
def Budget.setPricing (b : Budget) (inputPer1M outputPer1M : ℚ) : Budget :=
  { b with inputPricePer1M := inputPer1M, outputPricePer1M := outputPer1M }

/-- `Budget.RecordUsage` (budget.go): accumulate tokens exactly (Go `int`)
and the cost `float64(in)/1e6*inputPrice + float64(out)/1e6*outputPrice`
in binary64, with each operation correctly rounded and grouped as the Go
expression groups it. -/
def Budget.recordUsage (b : Budget) (inputTokens outputTokens : Int) : Budget :=
  { b with
    totalInputTokens := b.totalInputTokens + inputTokens
    totalOutputTokens := b.totalOutputTokens + outputTokens
    sessionCost :=
      floatAdd b.sessionCost
        (floatAdd
          (floatMul (floatDiv (intToFloat inputTokens) 1000000) b.inputPricePer1M)
          (floatMul (floatDiv (intToFloat outputTokens) 1000000) b.outputPricePer1M)) }

/-- The exact-arithmetic idealization of `Budget.RecordUsage` (budget.go):
the same accumulation with the cost computed over the real numbers
(here: exact rationals) instead of binary64.  This is the reading under
which the spec's round-trip law is an identity. -/
def Budget.recordUsageExact (b : Budget) (inputTokens outputTokens : Int) : Budget :=
  { b with
    totalInputTokens := b.totalInputTokens + inputTokens
    totalOutputTokens := b.totalOutputTokens + outputTokens
    sessionCost := b.sessionCost +
      ((inputTokens : ℚ) / 1000000 * b.inputPricePer1M +
       (outputTokens : ℚ) / 1000000 * b.outputPricePer1M) }

/-- `Budget.GetEffectiveLimit` / `getEffectiveLimitUnlocked` (budget.go). -/
def Budget.getEffectiveLimit (b : Budget) : Int :=
  let limit :=
    if b.modelContextSize > 0 && b.modelContextSize < b.maxTokens then
      b.modelContextSize
    else
      b.maxTokens
  limit - b.reserveForResponse

/-- `context.BudgetSnapshot` (budget.go). -/
structure BudgetSnapshot where
  currentContextTokens : Int
  maxContextTokens : Int
  usagePercent : ℚ
  sessionInputTokens : Int
  sessionOutputTokens : Int
  sessionCost : ℚ
  remainingTokens : Int
  atWarningLevel : Bool
  atCompactLevel : Bool
deriving DecidableEq, Repr

/-- `Budget.GetSnapshot` (budget.go). -/
def Budget.getSnapshot (b : Budget) (currentContextTokens : Int) : BudgetSnapshot :=
  let effectiveMax := b.getEffectiveLimit
  let usagePercent : ℚ :=
    if effectiveMax > 0 then
      (currentContextTokens : ℚ) / (effectiveMax : ℚ) * 100
    else 0
  { currentContextTokens := currentContextTokens
    maxContextTokens := effectiveMax
    usagePercent := usagePercent
    sessionInputTokens := b.totalInputTokens
    sessionOutputTokens := b.totalOutputTokens
    sessionCost := b.sessionCost
    remainingTokens := effectiveMax - currentContextTokens
    atWarningLevel := decide (usagePercent ≥ b.warnThreshold * 100)
    atCompactLevel := decide (usagePercent ≥ b.compactThreshold * 100) }

/-! ## Pruner (`context.Pruner`, pruner.go)

`PruneResult` bookkeeping (token savings, counts) does not affect the
returned message list and is not modelled; only the returned list is. -/

/-- `context.DefaultProtectedTools` (pruner.go). -/
def defaultProtectedTools : List String :=
  ["file_read", "read_file", "search_content", "grep", "glob"]

/-- Pruner state, from `context.Pruner` (pruner.go); the Go
`map[string]bool` of protected tools is modelled as the list of names with
a true entry.  `protectionFrac` is the Go `protectionRatio` float, as an
exact rational. -/
structure Pruner where
  protectedTools : List String
  protectionFrac : ℚ
deriving DecidableEq, Repr

/-- `context.NewPruner` (pruner.go): defaults are always included, the
config adds more; a ratio outside (0, 1) falls back to 0.30. -/
def newPruner (cfgProtectedTools : List String) (cfgProtectionFrac : ℚ) : Pruner :=
  { protectedTools := defaultProtectedTools ++ cfgProtectedTools
    protectionFrac :=
      if cfgProtectionFrac ≤ 0 ∨ cfgProtectionFrac ≥ 1 then 3/10 else cfgProtectionFrac }

/-- `Pruner.isProtectedTool` (pruner.go). -/
def Pruner.isProtectedTool (p : Pruner) (toolName : String) : Bool :=
  p.protectedTools.contains toolName

/-- The constant placeholder from `Pruner.pruneMessage` (pruner.go). -/
def prunedPlaceholder : String :=
  "[Previous tool result pruned for context management]"

/-- Per-block action of `Pruner.pruneMessage` (pruner.go): ToolResult blocks
are rewritten to the placeholder keeping `ToolUseID` and `IsError`; other
blocks pass through. -/
def pruneBlock : ContentBlock → ContentBlock
  | .toolResult toolUseId _ isError => .toolResult toolUseId prunedPlaceholder isError
  | block => block

/-- `Pruner.pruneMessage` (pruner.go). -/
def pruneMessage (msg : Message) : Message :=
  { role := msg.role, content := msg.content.map pruneBlock }

/-- Go `int(x)` truncation (toward zero) of a rational, used for
`int(float64(totalTokens) * protectionRatio)` in `Pruner.Prune`. -/
def ratTrunc (q : ℚ) : Int :=
  if 0 ≤ q then ⌊q⌋ else ⌈q⌉

/-- The descending accumulation loop of `Pruner.Prune` (pruner.go) that
finds the cutoff index: walking from the last token-info entry backwards,
accumulate tokens until the running sum reaches the threshold; that index
is the cutoff, defaulting to `messages.length`.  The input list here is the
token list paired with its indices, reversed (so the head is the last
entry). -/
def cutoffScan (threshold : Int) : List (Nat × Int) → Int → Nat → Nat
  | [], _, fallback => fallback
  | (i, t) :: rest, running, fallback =>
      let running2 := running + t
      if running2 ≥ threshold then i else cutoffScan threshold rest running2 fallback

/-- The cutoff index computed by `Pruner.Prune` (pruner.go). -/
def Pruner.cutoffIndex (p : Pruner) (messages : List Message)
    (tokenInfo : List TokenInfo) : Nat :=
  let totalTokens : Int := (tokenInfo.map (·.tokens)).sum
  let threshold := ratTrunc ((totalTokens : ℚ) * p.protectionFrac)
  cutoffScan threshold ((tokenInfo.map (·.tokens)).enum).reverse 0 messages.length

/-- The per-index body of the rewrite loop in `Pruner.Prune` (pruner.go):
messages at or past the cutoff pass through; before the cutoff, a prunable
entry whose tool name is not protected is rewritten; everything else passes
through (including indices without a token-info entry). -/
def Pruner.pruneAt (p : Pruner) (tokenInfo : List TokenInfo) (cutoff i : Nat)
    (msg : Message) : Message :=
  if i ≥ cutoff then msg
  else
    match tokenInfo[i]? with
    | some info =>
        if info.isPrunable then
          if p.isProtectedTool info.toolName then msg else pruneMessage msg
        else msg
    | none => msg

/-- The indexed rewrite loop of `Pruner.Prune` (pruner.go). -/
def Pruner.pruneList (p : Pruner) (tokenInfo : List TokenInfo) (cutoff : Nat) :
    Nat → List Message → List Message
  | _, [] => []
  | i, msg :: rest =>
      p.pruneAt tokenInfo cutoff i msg :: p.pruneList tokenInfo cutoff (i + 1) rest

/-- `Pruner.Prune` (pruner.go), returning the rewritten message list. -/
def Pruner.prune (p : Pruner) (messages : List Message)
    (tokenInfo : List TokenInfo) : List Message :=
  if messages.isEmpty ∨ tokenInfo.isEmpty then messages
  else p.pruneList tokenInfo (p.cutoffIndex messages tokenInfo) 0 messages

/-- `Pruner.ShouldPrune` (pruner.go): true iff unprotected prunable tokens
are positive and their share of the total is at least 10%.  Go computes
`float64(prunable)/float64(total) >= 0.10`; with `total = 0` and
`prunable > 0` that float division is `+Inf` and the comparison holds, so
that case is modelled explicitly; otherwise the comparison is exact
rational arithmetic. -/
def Pruner.shouldPrune (p : Pruner) (tokenInfo : List TokenInfo) : Bool :=
  let totalTokens : Int := (tokenInfo.map (·.tokens)).sum
  let prunableTokens : Int :=
    (tokenInfo.filterMap
      (fun info =>
        if info.isPrunable && !(p.isProtectedTool info.toolName) then
          some info.tokens
        else none)).sum
  decide (prunableTokens > 0) &&
    (if totalTokens = 0 then true
     else decide ((prunableTokens : ℚ) / (totalTokens : ℚ) ≥ 1/10))

/-! ## Compactor (`context.Compactor`, compactor.go)

`Compact` calls `generateSummary` (a provider round trip) only when the
message list is longer than `protectedMessages`.  The provider interaction
is modelled by passing the outcome of that summary request as an explicit
`Except` argument, and the returned flag records whether the summary
request (and hence `provider.Chat`) was issued at all.  `CompactResult`
bookkeeping does not affect the returned messages and is not modelled. -/

/-- Compactor configuration state, from `context.Compactor` (compactor.go). -/
structure Compactor where
  protectedMessages : Nat
  maxSummaryTokens : Nat
deriving DecidableEq, Repr

/-- `context.NewCompactor` (compactor.go): non-positive config values fall
back to the defaults 6 and 1000. -/
def newCompactor (protectedMessages maxSummaryTokens : Int) : Compactor :=
  { protectedMessages := if protectedMessages ≤ 0 then 6 else protectedMessages.toNat
    maxSummaryTokens := if maxSummaryTokens ≤ 0 then 1000 else maxSummaryTokens.toNat }

/-- The summary prefix message built by `Compactor.Compact` (compactor.go):
user role, text `"[Previous Conversation Summary]\n<summary>\n[End Summary]"`. -/
def summaryMessage (summary : String) : Message :=
  { role := .user
    content := [.text ("[Previous Conversation Summary]\n" ++ summary ++ "\n[End Summary]")] }

/-- The canned assistant acknowledgment appended by `Compactor.Compact`
(compactor.go). -/
def acknowledgmentMessage : Message :=
  { role := .assistant
    content := [.text "I understand the context from our previous conversation. I\x27ll continue helping you with this understanding."] }

/-- `Compactor.Compact` (compactor.go).  `summaryOutcome` is the result the
`generateSummary` provider round trip would produce; the `Bool` component
records whether that round trip was issued.  Short inputs return unchanged
without consulting the provider; a summary error is surfaced; otherwise the
result is the summary message, the acknowledgment, then the preserved
suffix. -/
def Compactor.compact (c : Compactor) (summaryOutcome : Except String String)
    (messages : List Message) : Except String (List Message) × Bool :=
  if messages.length ≤ c.protectedMessages then
    (Except.ok messages, false)
  else
    let toPreserve := messages.drop (messages.length - c.protectedMessages)
    match summaryOutcome with
    | .error e => (Except.error ("failed to generate summary: " ++ e), true)
    | .ok summary =>
        (Except.ok (summaryMessage summary :: acknowledgmentMessage :: toPreserve), true)

/-! ## Memory token index (`agent.Memory`, memory.go)

`ReplaceMessages` (and, cumulatively, `AddMessage`) derives the token-info
row of each message from the estimator and the message contents. -/

/-- `Memory.isPrunable` (memory.go), identical to `context.isPrunableMessage`
(token.go). -/
def isPrunableMessage (msg : Message) : Bool :=
  msg.role == .tool ||
    msg.content.any (fun b => match b with | .toolResult .. => true | _ => false)

/-- `Memory.extractToolName` (memory.go): the first ToolUse block name, else
the empty string. -/
def extractToolName (msg : Message) : String :=
  match msg.content.findSome?
      (fun b => match b with | .toolUse _ name _ => some name | _ => none) with
  | some name => name
  | none => ""

/-- `Memory.extractToolUseID` (memory.go): the first ToolResult block id,
else the empty string. -/
def extractToolUseId (msg : Message) : String :=
  match msg.content.findSome?
      (fun b => match b with | .toolResult toolUseId _ _ => some toolUseId | _ => none) with
  | some toolUseId => toolUseId
  | none => ""

/-- The token-info index `agent.Memory` maintains for a message list,
as recomputed by `Memory.ReplaceMessages` (memory.go); `Memory.AddMessage`
builds exactly the same rows incrementally. -/
def buildTokenInfo (msgs : List Message) : List TokenInfo :=
  msgs.enum.map
    (fun p =>
      { messageIndex := (p.1 : Int)
        tokens := (estimateMessage p.2 : Int)
        role := p.2.role
        isPrunable := isPrunableMessage p.2
        toolName := extractToolName p.2
        toolUseId := extractToolUseId p.2 })

/-! ## Context manager (`context.Manager`, manager.go) -/

/-- `context.ContextAction` (manager.go). -/
inductive ContextAction
  | actionNone
  | actionWarn
  | actionPrune
  | actionCompact
deriving DecidableEq, Repr

/-- Manager state, from `context.Manager` (manager.go).  `compactor` is
`some` exactly when a provider was configured (`NewManager` only builds a
compactor then); event emission is fire-and-forget and not modelled. -/
structure Manager where
  budget : Budget
  pruner : Pruner
  compactor : Option Compactor
  autoCompact : Bool
  autoPrune : Bool
deriving DecidableEq, Repr

/-- `Manager.calculateTokens` (manager.go). -/
def Manager.calculateTokens (info : List TokenInfo) : Int :=
  (info.map (·.tokens)).sum

/-- `Manager.CheckContext` (manager.go). -/
def Manager.checkContext (m : Manager) (currentTokens : Int) : ContextAction :=
  let snapshot := m.budget.getSnapshot currentTokens
  if snapshot.atCompactLevel then .actionCompact
  else if snapshot.atWarningLevel then .actionWarn
  else .actionNone

/-- `Manager.PrepareContext` (manager.go).  `summaryOutcome` stands for the
provider summary round trip the compactor would perform if invoked.  Warn
returns the messages unchanged; at compact level, compaction runs when
auto-compact is on and a compactor exists, else pruning runs when
auto-prune is on and `ShouldPrune` holds, else the messages are returned
unchanged. -/
def Manager.prepareContext (m : Manager) (summaryOutcome : Except String String)
    (messages : List Message) (tokenInfo : List TokenInfo) :
    Except String (List Message) :=
  let currentTokens := Manager.calculateTokens tokenInfo
  match m.checkContext currentTokens with
  | .actionCompact =>
      match m.autoCompact, m.compactor with
      | true, some c =>
          match (c.compact summaryOutcome messages).1 with
          | .error e => .error e
          | .ok compacted => .ok compacted
      | _, _ =>
          if m.autoPrune && m.pruner.shouldPrune tokenInfo then
            .ok (m.pruner.prune messages tokenInfo)
          else
            .ok messages
  | _ => .ok messages

/-! ## The agent context step (`Agent.processLoop`, agent.go lines 162-192)

At the start of each loop iteration the agent snapshots Memory, calls
`PrepareContext`, and — only when the returned list has a DIFFERENT LENGTH
than the snapshot (`len(preparedMsgs) != len(messages)`) — replaces Memory,
emits ContextUpdate, re-emits TokenUpdate, and uses the prepared list for
the ChatRequest; otherwise Memory and the request keep the original list
(on a PrepareContext error an Error event is emitted and the iteration also
continues with the original list). -/

/-- Outcome of the context-management step of one agent iteration.
`replaced` is true exactly when `Memory.ReplaceMessages` is called (and the
ContextUpdate event plus the second TokenUpdate are emitted);
`requestMessages` is the list the subsequent ChatRequest is built from. -/
structure AgentCtxOutcome where
  memoryAfter : List Message
  requestMessages : List Message
  replaced : Bool
deriving DecidableEq, Repr

/-- The context-management step of `Agent.processLoop` (agent.go lines
162-192), with the token info recomputed from memory exactly as
`Memory.GetTokenInfo` reports it. -/
def agentContextStep (mgr : Option Manager) (summaryOutcome : Except String String)
    (memory : List Message) : AgentCtxOutcome :=
  match mgr with
  | none => { memoryAfter := memory, requestMessages := memory, replaced := false }
  | some m =>
      match m.prepareContext summaryOutcome memory (buildTokenInfo memory) with
      | .error _ => { memoryAfter := memory, requestMessages := memory, replaced := false }
      | .ok prepared =>
          if prepared.length ≠ memory.length then
            { memoryAfter := prepared, requestMessages := prepared, replaced := true }
          else
            { memoryAfter := memory, requestMessages := memory, replaced := false }

/-! ## Provider stream adapters (C3)

Each adapter's `streamResponse` goroutine is modelled as a function from
the decoded wire input to the list of events sent on the channel.  The wire
input is the list of scanner lines, already classified/decoded (a line
without the expected framing, the `[DONE]` sentinel, a line whose JSON does
not parse, or a parsed chunk), plus an optional transport read error: in Go
`bufio.Scanner.Err()` reports a read error only after `Scan` has returned
false because of it, so the model surfaces `readErr` only when the loop
consumed every available line without breaking early. -/

/-- `providers.ChatEvent` (provider.go), specialized per event type.
A ToolUse event carries the id, name and (serialized) input. -/
inductive ChatEventK
  | messageStart
  | textDelta (content : String)
  | toolUseEvt (id name : String) (inputJSON : Option String)
  | messageDone
  | errorEvt (msg : String)
deriving DecidableEq, Repr

/-- How a streaming loop stopped: the input ran out (EOF), the loop broke
early at a protocol terminator, or the function returned from inside the
loop after a parse failure. -/
inductive StreamExit
  | ranOut
  | brokeEarly
  | returnedErr
deriving DecidableEq, Repr

/-- Event classifiers used to state stream normalization. -/
def isStartEvt : ChatEventK → Bool
  | .messageStart => true
  | _ => false

/-- True for the events that carry completion content (TextDelta/ToolUse). -/
def isContentEvt : ChatEventK → Bool
  | .textDelta _ => true
  | .toolUseEvt .. => true
  | _ => false

/-- True for MessageDone. -/
def isDoneEvt : ChatEventK → Bool
  | .messageDone => true
  | _ => false

/-- True for Error events. -/
def isErrorEvt : ChatEventK → Bool
  | .errorEvt _ => true
  | _ => false

/-- Walks the event list up to the first MessageStart or the first
content event: true iff a MessageStart comes first (or there is no content
event at all). -/
def startBeforeContent : List ChatEventK → Bool
  | [] => true
  | e :: rest =>
      if isContentEvt e then false
      else if isStartEvt e then true
      else startBeforeContent rest

/-- The stream-normalization property of the claim, over an emitted event
list: exactly one MessageStart, occurring before the first
TextDelta/ToolUse; exactly one terminator (MessageDone or Error); and the
terminator is the last event (nothing follows it). -/
def normalizedStream (events : List ChatEventK) : Bool :=
  (events.countP isStartEvt == 1) &&
  startBeforeContent events &&
  (events.countP isDoneEvt + events.countP isErrorEvt == 1) &&
  (match events.getLast? with
   | some e => isDoneEvt e || isErrorEvt e
   | none => false)

/-! ### OpenAI adapter (`openai.Client.streamResponse`, client.go) -/

/-- One entry of a chunk's `delta.tool_calls` array (fields of the decoded
JSON the Go code reads: optional id, optional function name, optional
function arguments fragment). -/
structure OpenAIToolCallDelta where
  id : Option String
  name : Option String
  arguments : Option String
deriving DecidableEq, Repr

/-- A chunk's `choices[0].delta` object. -/
structure OpenAIDelta where
  content : Option String
  toolCalls : Option (List OpenAIToolCallDelta)
deriving DecidableEq, Repr

/-- A chunk's `choices[0]` object. -/
structure OpenAIChoice where
  delta : Option OpenAIDelta
  finishReason : Option String
deriving DecidableEq, Repr

/-- A parsed OpenAI SSE chunk. -/
structure OpenAIChunk where
  choices : List OpenAIChoice
deriving DecidableEq, Repr

/-- One scanner line of the OpenAI SSE stream, pre-classified. -/
inductive OpenAILine
  | notData
  | doneMark
  | parseFail
  | chunk (c : OpenAIChunk)
deriving DecidableEq, Repr

/-- The accumulating tool-call state of the OpenAI loop (`currentToolCall`
id and name entries, plus `accumulatedArgs`). -/
structure OpenAIAccum where
  id : Option String
  name : Option String
  args : String
deriving DecidableEq, Repr

/-- The `delta.tool_calls` accumulation of the OpenAI loop: id and name are
overwritten when present, argument fragments are concatenated. -/
def openaiApplyToolCalls : List OpenAIToolCallDelta → OpenAIAccum → OpenAIAccum
  | [], st => st
  | tc :: rest, st =>
      let st2 : OpenAIAccum :=
        { id := match tc.id with | some s => some s | none => st.id
          name := match tc.name with | some s => some s | none => st.name
          args := match tc.arguments with | some s => st.args ++ s | none => st.args }
      openaiApplyToolCalls rest st2

/-- The TextDelta emission of one OpenAI chunk: a present, non-empty
content delta emits one TextDelta. -/
def openaiTextEvents (delta : OpenAIDelta) : List ChatEventK :=
  match delta.content with
  | some s => if s ≠ "" then [.textDelta s] else []
  | none => []

/-- The ToolUse emission of one OpenAI chunk: on
`finish_reason == "tool_calls"` with id and name accumulated, emit one
ToolUse whose input is the JSON parse of the accumulated arguments
(embedded as the accumulated string itself). -/
def openaiFinishEvents (finishReason : Option String) (st : OpenAIAccum) :
    List ChatEventK :=
  match finishReason with
  | some fr =>
      if fr = "tool_calls" then
        match st.id, st.name with
        | some i, some n => [.toolUseEvt i n (some st.args)]
        | _, _ => []
      else []
  | none => []

/-- Processing of one parsed chunk in the OpenAI loop: a non-empty content
delta emits TextDelta; tool-call deltas update the accumulator; then the
finish-reason check may emit one ToolUse.  Chunks without choices or
without a delta are skipped. -/
def openaiProcessChunk (c : OpenAIChunk) (st : OpenAIAccum) :
    List ChatEventK × OpenAIAccum :=
  match c.choices.head? with
  | none => ([], st)
  | some choice =>
      match choice.delta with
      | none => ([], st)
      | some delta =>
          (openaiTextEvents delta ++
             openaiFinishEvents choice.finishReason
               (openaiApplyToolCalls (delta.toolCalls.getD []) st),
           openaiApplyToolCalls (delta.toolCalls.getD []) st)

/-- The scanner loop of `openai.Client.streamResponse` (client.go):
skip non-`data:` lines, break at `[DONE]`, emit an Error and return on a
parse failure, otherwise process the chunk. -/
def openaiLoop : List OpenAILine → OpenAIAccum → List ChatEventK × StreamExit
  | [], _ => ([], .ranOut)
  | .notData :: rest, st => openaiLoop rest st
  | .doneMark :: _, _ => ([], .brokeEarly)
  | .parseFail :: _, _ => ([.errorEvt "failed to parse chunk"], .returnedErr)
  | .chunk c :: rest, st =>
      let step := openaiProcessChunk c st
      let restOut := openaiLoop rest step.2
      (step.1 ++ restOut.1, restOut.2)

/-- `openai.Client.streamResponse` (client.go): MessageStart is emitted
first; after the loop, MessageDone is emitted unless the loop returned on a
parse failure; finally, if the scanner stopped with a read error (only
observable when the input ran out), an Error event is emitted AFTER
MessageDone. -/
def openaiStreamResponse (lines : List OpenAILine) (readErr : Option String) :
    List ChatEventK :=
  let out := openaiLoop lines { id := none, name := none, args := "" }
  ChatEventK.messageStart ::
    (out.1 ++
      match out.2 with
      | .returnedErr => []
      | .brokeEarly => [.messageDone]
      | .ranOut =>
          .messageDone ::
            (match readErr with
             | some e => [.errorEvt ("scanner error: " ++ e)]
             | none => []))

/-! ### Ollama adapter (`ollama.Client.streamResponse`, client.go) -/

/-- The `function` object of an Ollama tool call (name defaults to the
empty string when absent, mirroring Go's zero-value type assertion). -/
structure OllamaFunc where
  name : String
  argumentsJSON : Option String
deriving DecidableEq, Repr

/-- One entry of an Ollama chunk's `message.tool_calls`; entries without a
`function` object are skipped. -/
structure OllamaToolCall where
  function : Option OllamaFunc
deriving DecidableEq, Repr

/-- An Ollama chunk's `message` object. -/
structure OllamaMsg where
  content : Option String
  toolCalls : Option (List OllamaToolCall)
deriving DecidableEq, Repr

/-- A parsed Ollama NDJSON chunk (`done` is false when absent). -/
structure OllamaChunk where
  done : Bool
  message : Option OllamaMsg
deriving DecidableEq, Repr

/-- One scanner line of the Ollama NDJSON stream, pre-classified. -/
inductive OllamaLine
  | parseFail
  | chunk (c : OllamaChunk)
deriving DecidableEq, Repr

/-- Events produced from one non-done Ollama chunk's `message`: a non-empty
content emits TextDelta; each tool call with a `function` object emits a
ToolUse with the synthesized id `"tool_" + name`. -/
def ollamaHandleMsg (m : OllamaMsg) : List ChatEventK :=
  (match m.content with
   | some s => if s ≠ "" then [.textDelta s] else []
   | none => []) ++
  (match m.toolCalls with
   | some tcs =>
       tcs.filterMap
         (fun tc =>
           tc.function.map
             (fun f => .toolUseEvt ("tool_" ++ f.name) f.name f.argumentsJSON))
   | none => [])

/-- The scanner loop of `ollama.Client.streamResponse` (client.go): a parse
failure emits Error and returns; a `done:true` chunk emits MessageDone and
breaks; other chunks emit their message events. -/
def ollamaLoop : List OllamaLine → List ChatEventK × StreamExit
  | [] => ([], .ranOut)
  | .parseFail :: _ => ([.errorEvt "failed to parse chunk"], .returnedErr)
  | .chunk c :: rest =>
      if c.done then ([.messageDone], .brokeEarly)
      else
        let restOut := ollamaLoop rest
        ((match c.message with | some m => ollamaHandleMsg m | none => []) ++ restOut.1,
         restOut.2)

/-- `ollama.Client.streamResponse` (client.go): MessageStart first; the
loop emits MessageDone only at a `done:true` chunk; after the loop a read
error (observable only when the input ran out) emits a trailing Error. -/
def ollamaStreamResponse (lines : List OllamaLine) (readErr : Option String) :
    List ChatEventK :=
  let out := ollamaLoop lines
  ChatEventK.messageStart ::
    (out.1 ++
      match out.2 with
      | .returnedErr => []
      | .brokeEarly => []
      | .ranOut =>
          match readErr with
          | some e => [.errorEvt ("scanner error: " ++ e)]
          | none => [])

/-! ### Anthropic adapter (`anthropic.Client.streamResponse` /
`Client.handleEvent`, client.go) -/

/-- The `delta` object of an Anthropic `content_block_delta` event. -/
inductive AnthDelta
  | textDeltaD (text : Option String)
  | inputJsonDeltaD
  | otherDelta
deriving DecidableEq, Repr

/-- The `content_block` object of an Anthropic `content_block_stop` event.
For a `tool_use` block the Go code type-asserts id, name and input; other
block types produce nothing. -/
inductive AnthBlockInfo
  | toolUseBlock (id name : String) (inputJSON : Option String)
  | otherBlock
deriving DecidableEq, Repr

/-- A parsed Anthropic SSE event, by its `type` field. -/
inductive AnthChunk
  | messageStartC
  | contentBlockStartC
  | contentBlockDeltaC (delta : Option AnthDelta)
  | contentBlockStopC (contentBlock : Option AnthBlockInfo)
  | messageDeltaC
  | messageStopC
  | otherC
deriving DecidableEq, Repr

/-- One scanner line of the Anthropic SSE stream, pre-classified. -/
inductive AnthLine
  | notData
  | doneMark
  | parseFail
  | chunk (c : AnthChunk)
deriving DecidableEq, Repr

/-- `anthropic.Client.handleEvent` (client.go): message_start forwards
MessageStart, text deltas forward TextDelta, a tool_use content_block_stop
forwards ToolUse, message_stop forwards MessageDone; everything else is
silently dropped.  Note no MessageStart is ever synthesized. -/
def anthHandleEvent : AnthChunk → List ChatEventK
  | .messageStartC => [.messageStart]
  | .contentBlockStartC => []
  | .contentBlockDeltaC none => []
  | .contentBlockDeltaC (some (.textDeltaD (some t))) => [.textDelta t]
  | .contentBlockDeltaC (some (.textDeltaD none)) => []
  | .contentBlockDeltaC (some .inputJsonDeltaD) => []
  | .contentBlockDeltaC (some .otherDelta) => []
  | .contentBlockStopC (some (.toolUseBlock id name inputJSON)) =>
      [.toolUseEvt id name inputJSON]
  | .contentBlockStopC (some .otherBlock) => []
  | .contentBlockStopC none => []
  | .messageDeltaC => []
  | .messageStopC => [.messageDone]
  | .otherC => []

/-- The scanner loop of `anthropic.Client.streamResponse` (client.go). -/
def anthLoop : List AnthLine → List ChatEventK × StreamExit
  | [] => ([], .ranOut)
  | .notData :: rest => anthLoop rest
  | .doneMark :: _ => ([], .brokeEarly)
  | .parseFail :: _ => ([.errorEvt "failed to parse event"], .returnedErr)
  | .chunk c :: rest =>
      let restOut := anthLoop rest
      (anthHandleEvent c ++ restOut.1, restOut.2)

/-- `anthropic.Client.streamResponse` (client.go): the events are exactly
the per-chunk forwards; a read error (observable only when the input ran
out) appends a trailing Error. -/
def anthropicStreamResponse (lines : List AnthLine) (readErr : Option String) :
    List ChatEventK :=
  let out := anthLoop lines
  out.1 ++
    match out.2 with
    | .returnedErr => []
    | .brokeEarly => []
    | .ranOut =>
        match readErr with
        | some e => [.errorEvt ("scanner error: " ++ e)]
        | none => []

/-- A wire line of an Anthropic stream that is neither a terminator nor a
message boundary: such lines produce only content events (or nothing). -/
def anthNeutralLine : AnthLine → Bool
  | .notData => true
  | .doneMark => false
  | .parseFail => false
  | .chunk .messageStartC => false
  | .chunk .messageStopC => false
  | .chunk _ => true

/-! ## Executor (`agent.Executor`, executor.go) -/

/-- `agent.Decision` (executor.go). -/
inductive Decision
  | approve
  | deny
  | alwaysAllow
deriving DecidableEq, Repr

/-- `tools.Result` (tool.go).  The `Error` field holds the error message. -/
structure ToolResultGo where
  success : Bool
  output : String
  error : Option String
deriving DecidableEq, Repr

/-- `tools.NewErrorResult` (tool.go). -/
def newErrorResult (errMsg : String) : ToolResultGo :=
  { success := false, output := errMsg, error := some errMsg }

/-- The fixed confirmation set of `Executor.needsConfirmation` (executor.go). -/
def confirmationTools : List String :=
  ["file_write", "file_edit", "file_delete", "bash"]

/-- `Executor.needsConfirmation` (executor.go): an always-allow settings
entry suppresses confirmation; otherwise only the fixed tool-name set needs
it.  The settings are modelled as the list of allowed tool names (`none`
when no settings object is attached). -/
def needsConfirmation (allowedSettings : Option (List String)) (name : String) : Bool :=
  if (match allowedSettings with
      | some allowed => allowed.contains name
      | none => false) then
    false
  else
    confirmationTools.contains name

/-- The tail of `Executor.Execute` (executor.go): invoke the tool, wrapping
a tool error. -/
def executorRunTool (toolOutcome : Except String ToolResultGo) :
    Except String ToolResultGo × Bool :=
  match toolOutcome with
  | .error e => (.error ("tool execution failed: " ++ e), true)
  | .ok r => (.ok r, true)

/-- `Executor.Execute` (executor.go).  Inputs model the call environment:
whether the registry resolves the tool name, the settings, the installed
confirmation function's reply for this call (`none` when no confirmation
function is installed), and the outcome the resolved tool's `Execute`
action WOULD produce if invoked.  The returned flag records whether the
tool's `Execute` action was actually invoked.  The `AlwaysAllow` settings
persistence is a side effect that does not change the returned result and
is not modelled. -/
def executorExecute (registryHasTool : Bool) (allowedSettings : Option (List String))
    (confirmReply : Option (Except String Decision)) (toolName : String)
    (toolOutcome : Except String ToolResultGo) :
    Except String ToolResultGo × Bool :=
  if registryHasTool = false then
    (.error ("tool not found: " ++ toolName), false)
  else if needsConfirmation allowedSettings toolName && confirmReply.isSome then
    match confirmReply with
    | some (.error e) => (.ok (newErrorResult ("confirmation failed: " ++ e)), false)
    | some (.ok .deny) => (.ok (newErrorResult "operation denied by user"), false)
    | some (.ok .approve) => executorRunTool toolOutcome
    | some (.ok .alwaysAllow) => executorRunTool toolOutcome
    | none => executorRunTool toolOutcome
  else
    executorRunTool toolOutcome

/-- The wrapping of an executor outcome into a ToolResult block by
`Agent.processLoop` (agent.go lines 270-284): an error becomes
`is_error = true` with the error text as content; a result carries its
output with `is_error = !Success`. -/
def wrapToolResult (toolUseId : String) (outcome : Except String ToolResultGo) :
    ContentBlock :=
  match outcome with
  | .error e => .toolResult toolUseId e true
  | .ok r => .toolResult toolUseId r.output (!r.success)

/-! ## The agent loop as a transition system (C2)

`Agent.processLoop` (agent.go) is modelled as a small-step relation over
memory states.  The free inputs of a run — the user texts, the provider
stream contents, and the tool outputs — appear as constructor arguments;
everything the code computes (token info, context preparation, the
length-gated memory replacement, the assembled messages) is computed by the
embedded definitions.  Phases mark the observation points inside one loop
iteration:

* `idle` — between turns (`ProcessMessage` not running, or just returned);
* `iterStart k` — at the top of the `for` loop with `k` iterations done;
* `prepared k` — after the PrepareContext step (memory possibly replaced);
* `streamed k toolCalls` — after the assistant message was persisted.

The assistant-message shapes allowed by `chatDone` slightly over-approximate
what the streaming assembly can produce (it never yields adjacent or empty
text blocks); the traces used below only use shapes a real stream produces. -/

/-- The queued data of one tool call (`providers.ToolUseContent`). -/
structure ToolCallData where
  id : String
  name : String
  inputJSON : Option String
deriving DecidableEq, Repr

/-- `Memory.AddUserMessage` (memory.go). -/
def mkUserMessage (text : String) : Message :=
  { role := .user, content := [.text text] }

/-- Blocks an assembled assistant message can contain (text and tool use
only; the loop never puts other block kinds there). -/
def assistantBlockOk : ContentBlock → Bool
  | .text _ => true
  | .toolUse .. => true
  | _ => false

/-- The queued tool calls extracted while assembling the assistant message
(agent.go lines 220-234): the ToolUse blocks in order. -/
def extractToolCalls (blocks : List ContentBlock) : List ToolCallData :=
  blocks.filterMap
    (fun b =>
      match b with
      | .toolUse id name inputJSON => some { id := id, name := name, inputJSON := inputJSON }
      | _ => none)

/-- The single tool-role message committed after executing the queued calls
(agent.go lines 269-300): one ToolResult per call, in call order, with the
originating id; `outs` lists each call's resulting content and error flag. -/
def toolResultsMessage (toolCalls : List ToolCallData) (outs : List (String × Bool)) :
    Message :=
  { role := .tool
    content := (toolCalls.zip outs).map
      (fun p => .toolResult p.1.id p.2.1 p.2.2) }

/-- Position inside `Agent.processLoop` (agent.go). -/
inductive AgentPhase
  | idle
  | iterStart (k : Nat)
  | prepared (k : Nat)
  | streamed (k : Nat) (toolCalls : List ToolCallData)
deriving DecidableEq, Repr

/-- A state of the modelled agent: the Memory contents plus the loop
position. -/
structure AgentState where
  memory : List Message
  phase : AgentPhase
deriving DecidableEq, Repr

/-- One step of `Agent.processLoop` (agent.go), parameterized by the
agent's context manager.  `MaxToolIterations = 10` (agent.go line 15). -/
inductive AgentStep (mgr : Option Manager) : AgentState → AgentState → Prop
  | userTurn (mem : List Message) (text : String) :
      AgentStep mgr ⟨mem, .idle⟩ ⟨mem ++ [mkUserMessage text], .iterStart 0⟩
  | prepare (mem : List Message) (k : Nat) (summaryOutcome : Except String String)
      (hk : k < 10) :
      AgentStep mgr ⟨mem, .iterStart k⟩
        ⟨(agentContextStep mgr summaryOutcome mem).memoryAfter, .prepared k⟩
  | chatAbort (mem : List Message) (k : Nat) :
      AgentStep mgr ⟨mem, .prepared k⟩ ⟨mem, .idle⟩
  | chatDone (mem : List Message) (k : Nat) (blocks : List ContentBlock)
      (hb : blocks.all (assistantBlockOk ·) = true) :
      AgentStep mgr ⟨mem, .prepared k⟩
        ⟨mem ++ [{ role := .assistant, content := blocks }],
          .streamed k (extractToolCalls blocks)⟩
  | noTools (mem : List Message) (k : Nat) :
      AgentStep mgr ⟨mem, .streamed k []⟩ ⟨mem, .idle⟩
  | runTools (mem : List Message) (k : Nat) (toolCalls : List ToolCallData)
      (outs : List (String × Bool)) (hne : toolCalls ≠ [])
      (hlen : outs.length = toolCalls.length) :
      AgentStep mgr ⟨mem, .streamed k toolCalls⟩
        ⟨mem ++ [toolResultsMessage toolCalls outs], .iterStart (k + 1)⟩
  | iterCap (mem : List Message) :
      AgentStep mgr ⟨mem, .iterStart 10⟩ ⟨mem, .idle⟩

/-- Reachability of agent states from a fresh agent (empty Memory). -/
inductive AgentReach (mgr : Option Manager) : AgentState → Prop
  | init : AgentReach mgr ⟨[], .idle⟩
  | step {s t : AgentState} : AgentReach mgr s → AgentStep mgr s t → AgentReach mgr t

/-! ### Tool-result linkage -/

/-- The ids of the ToolUse blocks of a message when it is assistant-role
(the claim's "assistant ToolUse block"). -/
def toolUseIdsOf (m : Message) : List String :=
  if m.role == .assistant then
    m.content.filterMap
      (fun b => match b with | .toolUse id _ _ => some id | _ => none)
  else []

/-- The `tool_use_id`s of the ToolResult blocks of a message. -/
def toolResultIdsOf (m : Message) : List String :=
  m.content.filterMap
    (fun b => match b with | .toolResult toolUseId _ _ => some toolUseId | _ => none)

/-- Linkage check relative to the ToolUse ids `seen` in strictly earlier
messages: every ToolResult id of each message must already be seen. -/
def linkedFrom (seen : List String) : List Message → Bool
  | [] => true
  | m :: rest =>
      (toolResultIdsOf m).all (fun toolUseId => seen.contains toolUseId) &&
        linkedFrom (seen ++ toolUseIdsOf m) rest

/-- The tool-result linkage invariant of the claim: every ToolResult block's
`tool_use_id` equals the id of some assistant ToolUse block occurring in an
earlier message. -/
def linked (msgs : List Message) : Bool :=
  linkedFrom [] msgs

/-! ## Concrete scenarios for the C1 and C2 code-bug demonstrations -/

/-- C1 scenario memory: a conversation in which an old bash tool result is
the prunable bulk (`x`-runs stand for ordinary content; lengths chosen so
the pruner's 30% tail window keeps the last two messages and rewrites the
bash result). -/
def c1Messages : List Message :=
  [ mkUserMessage "hi",
    { role := .assistant, content := [.toolUse "t1" "bash" none] },
    { role := .tool,
      content := [.toolResult "t1" "xxxxxxxxxxxxxxxxxxxxxxxxxxxxxxxxxxxxxxxx" false] },
    { role := .assistant, content := [.text "xxxxxxxxxxxxxxxxxxxx"] },
    mkUserMessage "xxxxxxxxxxxxxxxxxxxxxxxxxxxxxxxxxxxxxxxx" ]

/-- C1 scenario manager: no compactor (nil provider), auto-prune on, a
budget whose effective limit (10 tokens) is far exceeded, so
`PrepareContext` takes the Compact path and runs the pruner. -/
def c1Manager : Manager :=
  { budget := newBudget 10 0 0 0 0
    pruner := newPruner [] (3/10)
    compactor := none
    autoCompact := true
    autoPrune := true }

/-- The pruned list `PrepareContext` returns in the C1 scenario: the bash
result rewritten to the placeholder, everything else unchanged — same
length as the input. -/
def c1PrunedMessages : List Message :=
  [ mkUserMessage "hi",
    { role := .assistant, content := [.toolUse "t1" "bash" none] },
    { role := .tool, content := [.toolResult "t1" prunedPlaceholder false] },
    { role := .assistant, content := [.text "xxxxxxxxxxxxxxxxxxxx"] },
    mkUserMessage "xxxxxxxxxxxxxxxxxxxxxxxxxxxxxxxxxxxxxxxx" ]

/-- C2 scenario: an assistant message carrying exactly one tool call. -/
def c2AssistantMsg (toolUseId : String) : Message :=
  { role := .assistant, content := [.toolUse toolUseId "b" none] }

/-- C2 scenario: the tool-role message answering that call. -/
def c2ResultMsg (toolUseId : String) : Message :=
  { role := .tool, content := [.toolResult toolUseId "" false] }

/-- C2 scenario manager: compactor present (provider configured),
auto-compact on, budget sized so the compact threshold is first reached
exactly at the second turn's first PrepareContext. -/
def c2Manager : Manager :=
  { budget := newBudget 400 0 0 0 0
    pruner := newPruner [] (3/10)
    compactor := some (newCompactor 6 1000)
    autoCompact := true
    autoPrune := true }

/-- C2 scenario: memory right before the second turn's PrepareContext —
one user turn that ran all 10 tool iterations (so the turn ended at the
iteration cap, with a tool message last), then the next turn's user
message: 22 messages. -/
def c2MemFull : List Message :=
  mkUserMessage "" ::
    c2AssistantMsg "t1" :: c2ResultMsg "t1" ::
    c2AssistantMsg "t2" :: c2ResultMsg "t2" ::
    c2AssistantMsg "t3" :: c2ResultMsg "t3" ::
    c2AssistantMsg "t4" :: c2ResultMsg "t4" ::
    c2AssistantMsg "t5" :: c2ResultMsg "t5" ::
    c2AssistantMsg "t6" :: c2ResultMsg "t6" ::
    c2AssistantMsg "t7" :: c2ResultMsg "t7" ::
    c2AssistantMsg "t8" :: c2ResultMsg "t8" ::
    c2AssistantMsg "t9" :: c2ResultMsg "t9" ::
    c2AssistantMsg "t10" :: c2ResultMsg "t10" ::
    [mkUserMessage ""]

/-- C2 scenario: the memory produced by the compaction rewrite of
`c2MemFull` — the preserved 6-message suffix STARTS with the tool result
for `t8`, whose assistant tool-use message was summarized away. -/
def c2BadMemory : List Message :=
  [ summaryMessage "SUM", acknowledgmentMessage,
    c2ResultMsg "t8",
    c2AssistantMsg "t9", c2ResultMsg "t9",
    c2AssistantMsg "t10", c2ResultMsg "t10",
    mkUserMessage "" ]

/-- Relation between an input block and its pruned form, written from the
claim: a ToolResult block keeps its `tool_use_id` and `is_error` and gets
the constant placeholder as content; any other block is unchanged. -/
def pruneBlockSpecRel (b bp : ContentBlock) : Prop :=
  match b with
  | .toolResult toolUseId _ isError => bp = .toolResult toolUseId prunedPlaceholder isError
  | _ => bp = b

/-! ## Theorems -/

theorem estimateStep_eq (acc : Nat) (b : ContentBlock) :
    estimateStep acc b = acc + specBlockCostBytes b := by
  cases b <;> simp [estimateStep, specBlockCostBytes] <;> omega

theorem estimate_foldl_eq (blocks : List ContentBlock) :
    ∀ acc : Nat, blocks.foldl estimateStep acc = acc + (blocks.map specBlockCostBytes).sum := by
  induction blocks with
  | nil => intro acc; simp
  | cons b rest ih =>
      intro acc
      simp only [List.foldl_cons, List.map_cons, List.sum_cons, ih, estimateStep_eq]
      omega

/-- C6 (amended): the estimator charges a base of 4 tokens per message plus
per-block costs — text cost for Text, 20 plus name plus JSON-serialized
input cost for ToolUse, 10 plus content cost for ToolResult, a fixed 1500
for Image — with `estimate_text(s) = ⌊len_bytes(s)/4⌋` counting the UTF-8
BYTES of `s` (Go `len` on a string), not its characters. -/
theorem estimator_per_block_accounting (msg : Message) :
    estimateMessage msg = specEstimateMessageBytes msg := by
  simp [estimateMessage, specEstimateMessageBytes, estimate_foldl_eq]

/-- C6 counterexample: on the 2-character, 4-byte text "éé" the code
(byte-counting) gives 5 tokens while the claim's character-counting formula
gives 4, so the claim's `len_chars` reading is false of the code. -/
theorem estimator_counts_bytes_not_chars :
    estimateMessage { role := .user, content := [.text "éé"] } = 5 ∧
    specEstimateMessageChars { role := .user, content := [.text "éé"] } = 4 ∧
    estimateMessage { role := .user, content := [.text "éé"] } ≠
      specEstimateMessageChars { role := .user, content := [.text "éé"] } := by
  refine ⟨by decide, by decide, by decide⟩

set_option maxRecDepth 100000 in
/-- C7 counterexample: with the input price set to the Go literal `0.3`
(the binary64 value nearest 3/10) and output price zero,
`RecordUsage(1,0); RecordUsage(5,0)` accumulates the session cost
1.8000000000000001e-06 while `RecordUsage(6,0)` accumulates 1.8e-06 —
binary64 rounding makes the two states differ, so the claimed same-state
equivalence is false on the code. -/
theorem budget_recordUsage_not_additive_float :
    ((((newBudget 100000 0 0 0 0).setPricing (roundF (3/10)) 0).recordUsage 1 0).recordUsage
        5 0).sessionCost ≠
      (((newBudget 100000 0 0 0 0).setPricing (roundF (3/10)) 0).recordUsage 6 0).sessionCost ∧
    ((((newBudget 100000 0 0 0 0).setPricing (roundF (3/10)) 0).recordUsage 1 0).recordUsage
        5 0).sessionCost = 4250129834582681 / 2361183241434822606848 ∧
    (((newBudget 100000 0 0 0 0).setPricing (roundF (3/10)) 0).recordUsage 6 0).sessionCost =
      8500259669165361 / 4722366482869645213696 := by
  refine ⟨by decide, by decide, by decide⟩

/-- C7 (amended): `record_usage(a,b); record_usage(c,d)` equals
`record_usage(a+c,b+d)` exactly for the accumulated session input and
output tokens (Go `int` arithmetic), and for the session cost the
equivalence holds in the exact-arithmetic idealization of the accumulation
`in/1e6·input_price + out/1e6·output_price` (full state equality there) —
but not in general for the binary64 cost the code actually accumulates. -/
theorem budget_recordUsage_additive (b : Budget) (a c bOut d : ℕ) :
    ((b.recordUsage (a : Int) (bOut : Int)).recordUsage (c : Int) (d : Int)).totalInputTokens =
      (b.recordUsage ((a + c : ℕ) : Int) ((bOut + d : ℕ) : Int)).totalInputTokens ∧
    ((b.recordUsage (a : Int) (bOut : Int)).recordUsage (c : Int) (d : Int)).totalOutputTokens =
      (b.recordUsage ((a + c : ℕ) : Int) ((bOut + d : ℕ) : Int)).totalOutputTokens ∧
    (b.recordUsageExact (a : Int) (bOut : Int)).recordUsageExact (c : Int) (d : Int) =
      b.recordUsageExact ((a + c : ℕ) : Int) ((bOut + d : ℕ) : Int) := by
  refine ⟨?_, ?_, ?_⟩
  · simp only [Budget.recordUsage]
    push_cast
    ring
  · simp only [Budget.recordUsage]
    push_cast
    ring
  · simp only [Budget.recordUsageExact, Budget.mk.injEq, eq_self_iff_true, true_and,
      and_true]
    refine ⟨?_, ?_, ?_⟩ <;> push_cast <;> ring

/-- C4: compacting more than `protectedMessages` messages with a successful
summary yields exactly `protectedMessages + 2` messages: the user-role
summary message (summary wrapped in the markers), the canned assistant
acknowledgment, then the final `protectedMessages` input messages unchanged
and in order (the drop of all but the last `protectedMessages`). -/
theorem compactor_suffix_preserved (c : Compactor) (summary : String)
    (messages : List Message) (h : c.protectedMessages < messages.length) :
    (c.compact (Except.ok summary) messages).1 =
      Except.ok (summaryMessage summary :: acknowledgmentMessage ::
        messages.drop (messages.length - c.protectedMessages)) ∧
    (summaryMessage summary :: acknowledgmentMessage ::
        messages.drop (messages.length - c.protectedMessages)).length =
      c.protectedMessages + 2 := by
  constructor
  · simp only [Compactor.compact]
    rw [if_neg (by omega)]
  · simp only [List.length_cons, List.length_drop]
    omega

theorem compactor_suffix_preserved_witness :
    ((newCompactor 6 1000).compact (Except.ok "SUM") (List.replicate 7 (mkUserMessage "m"))).1 =
      Except.ok (summaryMessage "SUM" :: acknowledgmentMessage ::
        (List.replicate 7 (mkUserMessage "m")).drop
          ((List.replicate 7 (mkUserMessage "m")).length - (newCompactor 6 1000).protectedMessages)) :=
  (compactor_suffix_preserved (newCompactor 6 1000) "SUM"
    (List.replicate 7 (mkUserMessage "m")) (by decide)).1

/-- C10: a message list no longer than `protectedMessages` is returned
unchanged by `Compactor.Compact`, with no error and without issuing the
summary provider request (the returned flag is false). -/
theorem compactor_short_input_unchanged (c : Compactor)
    (summaryOutcome : Except String String) (messages : List Message)
    (h : messages.length ≤ c.protectedMessages) :
    c.compact summaryOutcome messages = (Except.ok messages, false) := by
  simp [Compactor.compact, if_pos h]

theorem compactor_short_input_unchanged_witness :
    (newCompactor 6 1000).compact (Except.error "provider down")
        (List.replicate 4 (mkUserMessage "m")) =
      (Except.ok (List.replicate 4 (mkUserMessage "m")), false) :=
  compactor_short_input_unchanged (newCompactor 6 1000) (Except.error "provider down")
    (List.replicate 4 (mkUserMessage "m")) (by decide)

/-- C8: pruning a single message is idempotent and metadata-preserving:
the role is unchanged, the block count is unchanged, each ToolResult block
becomes the placeholder with its `tool_use_id` and `is_error` intact while
every other block is unchanged, and pruning an already-pruned message
yields the same message. -/
theorem pruneMessage_stable (msg : Message) :
    pruneMessage (pruneMessage msg) = pruneMessage msg ∧
    (pruneMessage msg).role = msg.role ∧
    (pruneMessage msg).content.length = msg.content.length ∧
    ∀ (i : Nat) (b bp : ContentBlock),
      msg.content[i]? = some b → (pruneMessage msg).content[i]? = some bp →
      pruneBlockSpecRel b bp := by
  refine ⟨?_, rfl, by simp [pruneMessage], ?_⟩
  · have hcomp : ∀ b, pruneBlock (pruneBlock b) = pruneBlock b := by
      intro b; cases b <;> rfl
    simp [pruneMessage, List.map_map, Function.comp_def, hcomp]
  · intro i b bp hb hbp
    have : (msg.content[i]?).map pruneBlock = some bp := by
      simpa [pruneMessage] using hbp
    rw [hb] at this
    have hbp2 : pruneBlock b = bp := by simpa using this
    subst hbp2
    cases b <;> simp [pruneBlock, pruneBlockSpecRel]

theorem pruneMessage_stable_witness :
    pruneMessage (pruneMessage { role := .tool, content := [.toolResult "t1" "big output" false] }) =
      pruneMessage { role := .tool, content := [.toolResult "t1" "big output" false] } ∧
    pruneBlockSpecRel (ContentBlock.toolResult "t1" "big output" false)
      (ContentBlock.toolResult "t1" prunedPlaceholder false) :=
  ⟨(pruneMessage_stable { role := .tool, content := [.toolResult "t1" "big output" false] }).1,
   (pruneMessage_stable { role := .tool, content := [.toolResult "t1" "big output" false] }).2.2.2
     0 _ _ rfl rfl⟩

/-- C9: when the tool requires confirmation and the installed confirmation
function answers Deny, `Executor.Execute` returns the synthetic error
result without invoking the resolved tool's Execute action (flag false),
and the agent's wrapping surfaces it as a ToolResult with `is_error`
true. -/
theorem executor_deny_skips_execution (allowedSettings : Option (List String))
    (toolName toolUseId : String) (toolOutcome : Except String ToolResultGo)
    (h : needsConfirmation allowedSettings toolName = true) :
    executorExecute true allowedSettings (some (Except.ok Decision.deny)) toolName toolOutcome =
      (Except.ok (newErrorResult "operation denied by user"), false) ∧
    wrapToolResult toolUseId
        (executorExecute true allowedSettings (some (Except.ok Decision.deny)) toolName
          toolOutcome).1 =
      ContentBlock.toolResult toolUseId "operation denied by user" true := by
  constructor
  · simp [executorExecute, h]
  · simp [executorExecute, h, wrapToolResult, newErrorResult]

theorem executor_deny_skips_execution_witness :
    executorExecute true none (some (Except.ok Decision.deny)) "bash"
        (Except.ok { success := true, output := "ran", error := none }) =
      (Except.ok (newErrorResult "operation denied by user"), false) ∧
    wrapToolResult "t9"
        (executorExecute true none (some (Except.ok Decision.deny)) "bash"
          (Except.ok { success := true, output := "ran", error := none })).1 =
      ContentBlock.toolResult "t9" "operation denied by user" true :=
  executor_deny_skips_execution none "bash" "t9"
    (Except.ok { success := true, output := "ran", error := none }) (by decide)

theorem pruneList_length (p : Pruner) (tokenInfo : List TokenInfo) (cutoff : Nat) :
    ∀ (k : Nat) (msgs : List Message),
      (p.pruneList tokenInfo cutoff k msgs).length = msgs.length := by
  intro k msgs
  induction msgs generalizing k with
  | nil => rfl
  | cons m rest ih => simp [Pruner.pruneList, ih]

theorem pruneList_getElem? (p : Pruner) (tokenInfo : List TokenInfo) (cutoff : Nat) :
    ∀ (msgs : List Message) (k i : Nat),
      (p.pruneList tokenInfo cutoff k msgs)[i]? =
        (msgs[i]?).map (p.pruneAt tokenInfo cutoff (k + i)) := by
  intro msgs
  induction msgs with
  | nil => intro k i; simp [Pruner.pruneList]
  | cons m rest ih =>
      intro k i
      cases i with
      | zero => simp [Pruner.pruneList]
      | succ j =>
          have h1 : k + (j + 1) = (k + 1) + j := by omega
          simp only [Pruner.pruneList, List.getElem?_cons_succ, h1]
          exact ih (k + 1) j

theorem pruneAt_protected (p : Pruner) (tokenInfo : List TokenInfo) (cutoff i : Nat)
    (msg : Message) (info : TokenInfo) (hinfo : tokenInfo[i]? = some info)
    (hprot : p.isProtectedTool info.toolName = true) :
    p.pruneAt tokenInfo cutoff i msg = msg := by
  unfold Pruner.pruneAt
  split
  · rfl
  · simp only [hinfo]
    split
    · simp [hprot]
    · rfl

/-- C5: `Pruner.Prune` never rewrites a message whose token-info tool name
is in the protected set — the output has the same length as the input and
agrees with the input at every protected index, regardless of token shares
and of the cutoff position. -/
theorem pruner_protected_never_rewritten (p : Pruner) (messages : List Message)
    (tokenInfo : List TokenInfo) (i : Nat) (info : TokenInfo)
    (hinfo : tokenInfo[i]? = some info)
    (hprot : p.isProtectedTool info.toolName = true) :
    (p.prune messages tokenInfo).length = messages.length ∧
    (p.prune messages tokenInfo)[i]? = messages[i]? := by
  unfold Pruner.prune
  split
  · exact ⟨rfl, rfl⟩
  · refine ⟨pruneList_length p tokenInfo _ 0 messages, ?_⟩
    rw [pruneList_getElem? p tokenInfo _ messages 0 i]
    simp only [Nat.zero_add]
    cases hm : messages[i]? with
    | none => rfl
    | some msg =>
        exact congrArg some (pruneAt_protected p tokenInfo _ i msg info hinfo hprot)

theorem pruner_protected_never_rewritten_witness :
    ((newPruner [] 0).prune
        [ { role := .tool, content := [.toolResult "t1" "file body" false] },
          mkUserMessage "recent" ]
        [ { messageIndex := 0, tokens := 1000, role := .tool, isPrunable := true,
            toolName := "file_read", toolUseId := "t1" },
          { messageIndex := 1, tokens := 10, role := .user, isPrunable := false,
            toolName := "", toolUseId := "" } ])[0]? =
      some { role := .tool, content := [.toolResult "t1" "file body" false] } :=
  by
    have h :=
      (pruner_protected_never_rewritten (newPruner [] 0)
        [ { role := .tool, content := [.toolResult "t1" "file body" false] },
          mkUserMessage "recent" ]
        [ { messageIndex := 0, tokens := 1000, role := .tool, isPrunable := true,
            toolName := "file_read", toolUseId := "t1" },
          { messageIndex := 1, tokens := 10, role := .user, isPrunable := false,
            toolName := "", toolUseId := "" } ]
        0
        { messageIndex := 0, tokens := 1000, role := .tool, isPrunable := true,
          toolName := "file_read", toolUseId := "t1" }
        (by decide) (by decide)).2
    rw [h]
    rfl

/-- C1 (code bug): in the Compact and auto-prune case, `PrepareContext`
returns a pruned message set that differs from the input but has the SAME
length; `Agent.processLoop` compares only lengths
(`len(preparedMsgs) != len(messages)`, agent.go line 173), so it does not
call `Memory.ReplaceMessages`, emits no ContextUpdate/TokenUpdate, and
builds the ChatRequest from the ORIGINAL message set — contradicting the
claim at this concrete, loop-shaped input. -/
theorem agent_discards_pruned_messages :
    c1Manager.prepareContext (Except.ok "") c1Messages (buildTokenInfo c1Messages) =
      Except.ok c1PrunedMessages ∧
    c1PrunedMessages ≠ c1Messages ∧
    c1PrunedMessages.length = c1Messages.length ∧
    agentContextStep (some c1Manager) (Except.ok "") c1Messages =
      { memoryAfter := c1Messages, requestMessages := c1Messages, replaced := false } := by
  refine ⟨by decide, by decide, by decide, by decide⟩

theorem contentOnly_counts (l : List ChatEventK) (h : l.all isContentEvt = true) :
    l.countP isStartEvt = 0 ∧ l.countP isDoneEvt = 0 ∧ l.countP isErrorEvt = 0 := by
  induction l with
  | nil => simp
  | cons e rest ih =>
      simp only [List.all_cons, Bool.and_eq_true] at h
      have hrest := ih h.2
      cases e <;> simp_all [List.countP_cons, isContentEvt, isStartEvt, isDoneEvt, isErrorEvt]

theorem isStartEvt_start : isStartEvt ChatEventK.messageStart = true := rfl

theorem isDoneEvt_start : isDoneEvt ChatEventK.messageStart = false := rfl

theorem isErrorEvt_start : isErrorEvt ChatEventK.messageStart = false := rfl

theorem isContentEvt_start : isContentEvt ChatEventK.messageStart = false := rfl

theorem normalizedStream_shape (mid : List ChatEventK) (term : ChatEventK)
    (hmid : mid.all isContentEvt = true)
    (hterm : (isDoneEvt term || isErrorEvt term) = true) :
    normalizedStream (ChatEventK.messageStart :: mid ++ [term]) = true := by
  obtain ⟨hs, hd, he⟩ := contentOnly_counts mid hmid
  have hts : isStartEvt term = false := by
    cases term <;> first | rfl | simp [isDoneEvt, isErrorEvt] at hterm
  have hlast : (ChatEventK.messageStart :: mid ++ [term]).getLast? = some term := by
    simpa using
      (List.getLast?_concat (ChatEventK.messageStart :: mid) :
        ((ChatEventK.messageStart :: mid) ++ [term]).getLast? = some term)
  have hcount1 : (ChatEventK.messageStart :: mid ++ [term]).countP isStartEvt = 1 := by
    simp [List.countP_cons, List.countP_append, hs, hts, isStartEvt_start]
  have hcount2 :
      (ChatEventK.messageStart :: mid ++ [term]).countP isDoneEvt +
        (ChatEventK.messageStart :: mid ++ [term]).countP isErrorEvt = 1 := by
    rcases Bool.or_eq_true_iff.mp hterm with h1 | h1
    · have h2 : isErrorEvt term = false := by
        cases term <;> first | rfl | simp [isDoneEvt] at h1
      simp [List.countP_cons, List.countP_append, hd, he, h1, h2, isDoneEvt_start,
        isErrorEvt_start]
    · have h2 : isDoneEvt term = false := by
        cases term <;> first | rfl | simp [isErrorEvt] at h1
      simp [List.countP_cons, List.countP_append, hd, he, h1, h2, isDoneEvt_start,
        isErrorEvt_start]
  simp only [normalizedStream, hcount1, hcount2, hlast, startBeforeContent,
    isContentEvt_start, isStartEvt_start, hterm]
  simp

theorem openaiTextEvents_content (delta : OpenAIDelta) :
    (openaiTextEvents delta).all isContentEvt = true := by
  unfold openaiTextEvents
  split
  · split <;> rfl
  · rfl

theorem openaiFinishEvents_content (finishReason : Option String) (st : OpenAIAccum) :
    (openaiFinishEvents finishReason st).all isContentEvt = true := by
  unfold openaiFinishEvents
  split
  · split
    · split <;> rfl
    · rfl
  · rfl

theorem openaiProcessChunk_content (c : OpenAIChunk) (st : OpenAIAccum) :
    (openaiProcessChunk c st).1.all isContentEvt = true := by
  unfold openaiProcessChunk
  split
  · rfl
  · split
    · rfl
    · simp [List.all_append, openaiTextEvents_content, openaiFinishEvents_content]

theorem openaiLoop_chunk_eq (c : OpenAIChunk) (rest : List OpenAILine) (st : OpenAIAccum) :
    openaiLoop (.chunk c :: rest) st =
      ((openaiProcessChunk c st).1 ++ (openaiLoop rest (openaiProcessChunk c st).2).1,
       (openaiLoop rest (openaiProcessChunk c st).2).2) := rfl

theorem openaiLoop_shape (lines : List OpenAILine) :
    ∀ st : OpenAIAccum,
      ((openaiLoop lines st).2 = .returnedErr →
        ∃ pre, (openaiLoop lines st).1 =
            pre ++ [ChatEventK.errorEvt "failed to parse chunk"] ∧
          pre.all isContentEvt = true) ∧
      ((openaiLoop lines st).2 ≠ .returnedErr →
        (openaiLoop lines st).1.all isContentEvt = true) := by
  induction lines with
  | nil =>
      intro st
      exact ⟨fun h => absurd h (by intro h2; exact StreamExit.noConfusion h2),
        fun _ => rfl⟩
  | cons line rest ih =>
      intro st
      cases line with
      | notData => exact ih st
      | doneMark =>
          exact ⟨fun h => absurd h (by intro h2; exact StreamExit.noConfusion h2),
            fun _ => rfl⟩
      | parseFail =>
          exact ⟨fun _ => ⟨[], rfl, rfl⟩,
            fun h => absurd rfl h⟩
      | chunk c =>
          have hc := openaiProcessChunk_content c st
          have ihr := ih (openaiProcessChunk c st).2
          rw [openaiLoop_chunk_eq]
          constructor
          · intro h
            obtain ⟨pre, hpre, hpreC⟩ := ihr.1 h
            refine ⟨(openaiProcessChunk c st).1 ++ pre, ?_, ?_⟩
            · simp only [hpre, List.append_assoc]
            · simp [List.all_append, hc, hpreC]
          · intro h
            have := ihr.2 h
            simp [List.all_append, hc, this]

theorem ollamaHandleMsg_content (m : OllamaMsg) :
    (ollamaHandleMsg m).all isContentEvt = true := by
  unfold ollamaHandleMsg
  simp only [List.all_append, Bool.and_eq_true]
  constructor
  · cases m.content with
    | none => rfl
    | some s => by_cases hs : s = "" <;> simp [hs, isContentEvt]
  · cases m.toolCalls with
    | none => rfl
    | some tcs =>
        simp only [List.all_eq_true]
        intro e he
        obtain ⟨tc, _, htc⟩ := List.mem_filterMap.mp he
        cases hf : tc.function with
        | none => rw [hf] at htc; simp [Option.map] at htc
        | some f =>
            rw [hf] at htc
            simp only [Option.map_some'] at htc
            cases htc
            rfl

theorem ollamaLoop_chunk_eq (c : OllamaChunk) (rest : List OllamaLine) :
    ollamaLoop (.chunk c :: rest) =
      (if c.done then ([ChatEventK.messageDone], StreamExit.brokeEarly)
       else
        ((match c.message with | some m => ollamaHandleMsg m | none => []) ++
            (ollamaLoop rest).1,
          (ollamaLoop rest).2)) := rfl

theorem ollamaLoop_shape (lines : List OllamaLine) :
    ((ollamaLoop lines).2 = .returnedErr →
      ∃ pre, (ollamaLoop lines).1 =
          pre ++ [ChatEventK.errorEvt "failed to parse chunk"] ∧
        pre.all isContentEvt = true) ∧
    ((ollamaLoop lines).2 = .brokeEarly →
      ∃ pre, (ollamaLoop lines).1 = pre ++ [ChatEventK.messageDone] ∧
        pre.all isContentEvt = true) ∧
    ((ollamaLoop lines).2 = .ranOut → (ollamaLoop lines).1.all isContentEvt = true) := by
  induction lines with
  | nil =>
      exact ⟨fun h => absurd h (by intro h2; exact StreamExit.noConfusion h2),
        fun h => absurd h (by intro h2; exact StreamExit.noConfusion h2),
        fun _ => rfl⟩
  | cons line rest ih =>
      cases line with
      | parseFail =>
          exact ⟨fun _ => ⟨[], rfl, rfl⟩,
            fun h => absurd h (by intro h2; exact StreamExit.noConfusion h2),
            fun h => absurd h (by intro h2; exact StreamExit.noConfusion h2)⟩
      | chunk c =>
          rw [ollamaLoop_chunk_eq]
          by_cases hdone : c.done
          · rw [if_pos hdone]
            exact ⟨fun h => absurd h (by intro h2; exact StreamExit.noConfusion h2),
              fun _ => ⟨[], rfl, rfl⟩,
              fun h => absurd h (by intro h2; exact StreamExit.noConfusion h2)⟩
          · rw [if_neg hdone]
            have hmsg :
                (match c.message with | some m => ollamaHandleMsg m | none => []).all
                  isContentEvt = true := by
              cases c.message with
              | none => rfl
              | some m => exact ollamaHandleMsg_content m
            refine ⟨fun h => ?_, fun h => ?_, fun h => ?_⟩
            · obtain ⟨pre, hpre, hpreC⟩ := ih.1 h
              refine ⟨(match c.message with | some m => ollamaHandleMsg m | none => []) ++ pre,
                ?_, ?_⟩
              · simp only [hpre, List.append_assoc]
              · simp [List.all_append, hmsg, hpreC]
            · obtain ⟨pre, hpre, hpreC⟩ := ih.2.1 h
              refine ⟨(match c.message with | some m => ollamaHandleMsg m | none => []) ++ pre,
                ?_, ?_⟩
              · simp only [hpre, List.append_assoc]
              · simp [List.all_append, hmsg, hpreC]
            · have := ih.2.2 h
              simp [List.all_append, hmsg, this]

theorem ollamaLoop_ranOut_inputs (lines : List OllamaLine) :
    (ollamaLoop lines).2 = .ranOut →
      OllamaLine.parseFail ∉ lines ∧
        ∀ c : OllamaChunk, OllamaLine.chunk c ∈ lines → c.done = false := by
  induction lines with
  | nil => intro _; exact ⟨by simp, by simp⟩
  | cons line rest ih =>
      intro h
      cases line with
      | parseFail => exact absurd h (by intro h2; exact StreamExit.noConfusion h2)
      | chunk c =>
          rw [ollamaLoop_chunk_eq] at h
          by_cases hdone : c.done
          · rw [if_pos hdone] at h
            exact absurd h (by intro h2; exact StreamExit.noConfusion h2)
          · rw [if_neg hdone] at h
            obtain ⟨h1, h2⟩ := ih h
            constructor
            · simp [h1]
            · intro c2 hc2
              rcases List.mem_cons.mp hc2 with hc2 | hc2
              · cases hc2; simpa using hdone
              · exact h2 c2 hc2

theorem anthHandleEvent_content (c : AnthChunk) (hneutral : anthNeutralLine (.chunk c) = true) :
    (anthHandleEvent c).all isContentEvt = true := by
  cases c with
  | messageStartC => simp [anthNeutralLine] at hneutral
  | messageStopC => simp [anthNeutralLine] at hneutral
  | contentBlockStartC => rfl
  | contentBlockDeltaC delta =>
      cases delta with
      | none => rfl
      | some d =>
          cases d with
          | textDeltaD t => cases t <;> simp [anthHandleEvent, isContentEvt]
          | inputJsonDeltaD => rfl
          | otherDelta => rfl
  | contentBlockStopC blk =>
      cases blk with
      | none => rfl
      | some b => cases b <;> simp [anthHandleEvent, isContentEvt]
  | messageDeltaC => rfl
  | otherC => rfl

theorem anthLoop_notData_eq (rest : List AnthLine) :
    anthLoop (.notData :: rest) = anthLoop rest := rfl

theorem anthLoop_chunk_eq (c : AnthChunk) (rest : List AnthLine) :
    anthLoop (.chunk c :: rest) =
      (anthHandleEvent c ++ (anthLoop rest).1, (anthLoop rest).2) := rfl

theorem anthLoop_neutral_body (body : List AnthLine)
    (h : body.all anthNeutralLine = true) :
    ∃ mid, anthLoop (body ++ [AnthLine.chunk .messageStopC]) =
        (mid ++ [ChatEventK.messageDone], .ranOut) ∧
      mid.all isContentEvt = true := by
  induction body with
  | nil => exact ⟨[], rfl, rfl⟩
  | cons line rest ih =>
      simp only [List.all_cons, Bool.and_eq_true] at h
      obtain ⟨mid, hmid, hmidC⟩ := ih h.2
      cases line with
      | notData =>
          refine ⟨mid, ?_, hmidC⟩
          rw [List.cons_append, anthLoop_notData_eq]
          exact hmid
      | doneMark => simp [anthNeutralLine] at h
      | parseFail => simp [anthNeutralLine] at h
      | chunk c =>
          refine ⟨anthHandleEvent c ++ mid, ?_, ?_⟩
          · rw [List.cons_append, anthLoop_chunk_eq, hmid, List.append_assoc]
          · simp [List.all_append, anthHandleEvent_content c h.1, hmidC]

/-- C3 (amended): how close each adapter comes to the normalization claim.
OpenAI: whenever the transport read does not fail, the emitted stream is
normalized (one MessageStart first, content events, exactly one terminator
last — MessageDone normally, a single Error on a malformed chunk).
Ollama: the same normalized shape holds whenever the stream contains a
`done:true` chunk, or a malformed chunk, or ends in a transport read error
(if the stream simply ends with none of these, no terminator is emitted at
all).  Anthropic: MessageStart and MessageDone are only forwarded from the
wire, so the normalized shape holds for well-formed wire streams — exactly
one leading `message_start`, content-only events in between, one trailing
`message_stop`, and no transport read error. -/
theorem stream_normalization_amended :
    (∀ lines : List OpenAILine,
      normalizedStream (openaiStreamResponse lines none) = true) ∧
    (∀ (lines : List OllamaLine) (readErr : Option String),
      (OllamaLine.parseFail ∈ lines ∨
        (∃ c : OllamaChunk, OllamaLine.chunk c ∈ lines ∧ c.done = true) ∨
        readErr.isSome = true) →
      normalizedStream (ollamaStreamResponse lines readErr) = true) ∧
    (∀ body : List AnthLine, body.all anthNeutralLine = true →
      normalizedStream
        (anthropicStreamResponse
          (AnthLine.chunk .messageStartC :: body ++ [AnthLine.chunk .messageStopC])
          none) = true) := by
  refine ⟨?_, ?_, ?_⟩
  · intro lines
    have hshape := openaiLoop_shape lines { id := none, name := none, args := "" }
    unfold openaiStreamResponse
    cases hexit : (openaiLoop lines { id := none, name := none, args := "" }).2 with
    | ranOut =>
        have hc := hshape.2 (by rw [hexit]; intro h; exact StreamExit.noConfusion h)
        simpa [hexit] using normalizedStream_shape _ ChatEventK.messageDone hc rfl
    | brokeEarly =>
        have hc := hshape.2 (by rw [hexit]; intro h; exact StreamExit.noConfusion h)
        simpa [hexit] using normalizedStream_shape _ ChatEventK.messageDone hc rfl
    | returnedErr =>
        obtain ⟨pre, hpre, hpreC⟩ := hshape.1 hexit
        have := normalizedStream_shape pre (ChatEventK.errorEvt "failed to parse chunk") hpreC rfl
        simpa [hexit, hpre, List.append_assoc] using this
  · intro lines readErr hin
    have hshape := ollamaLoop_shape lines
    unfold ollamaStreamResponse
    cases hexit : (ollamaLoop lines).2 with
    | returnedErr =>
        obtain ⟨pre, hpre, hpreC⟩ := hshape.1 hexit
        have := normalizedStream_shape pre (ChatEventK.errorEvt "failed to parse chunk") hpreC rfl
        simpa [hexit, hpre, List.append_assoc] using this
    | brokeEarly =>
        obtain ⟨pre, hpre, hpreC⟩ := hshape.2.1 hexit
        have := normalizedStream_shape pre ChatEventK.messageDone hpreC rfl
        simpa [hexit, hpre, List.append_assoc] using this
    | ranOut =>
        have hc := hshape.2.2 hexit
        obtain ⟨hnofail, hnodone⟩ := ollamaLoop_ranOut_inputs lines hexit
        rcases hin with hin | hin | hin
        · exact absurd hin hnofail
        · obtain ⟨c, hc2, hcdone⟩ := hin
          rw [hnodone c hc2] at hcdone
          exact Bool.noConfusion hcdone
        · obtain ⟨e, he⟩ := Option.isSome_iff_exists.mp hin
          subst he
          simpa [hexit] using
            normalizedStream_shape _ (ChatEventK.errorEvt ("scanner error: " ++ e)) hc rfl
  · intro body hbody
    obtain ⟨mid, hmid, hmidC⟩ := anthLoop_neutral_body body hbody
    unfold anthropicStreamResponse
    rw [show AnthLine.chunk AnthChunk.messageStartC :: body ++ [AnthLine.chunk AnthChunk.messageStopC] =
          AnthLine.chunk AnthChunk.messageStartC :: (body ++ [AnthLine.chunk AnthChunk.messageStopC]) from rfl]
    simp only [anthLoop, hmid, anthHandleEvent]
    simpa [List.append_assoc] using
      normalizedStream_shape mid ChatEventK.messageDone hmidC rfl

theorem stream_normalization_amended_witness :
    normalizedStream (openaiStreamResponse [] none) = true ∧
    normalizedStream
      (ollamaStreamResponse [OllamaLine.chunk { done := true, message := none }] none) = true ∧
    normalizedStream
      (anthropicStreamResponse
        [AnthLine.chunk .messageStartC, AnthLine.chunk .messageStopC] none) = true := by
  refine ⟨stream_normalization_amended.1 [], ?_, ?_⟩
  · exact stream_normalization_amended.2.1 [OllamaLine.chunk { done := true, message := none }]
      none (Or.inr (Or.inl ⟨{ done := true, message := none }, by simp, rfl⟩))
  · exact stream_normalization_amended.2.2 [] rfl

/-- C3 counterexample: when the OpenAI adapter's underlying read fails
after the data is exhausted, the goroutine emits MessageDone and THEN an
Error event — two terminators, with an event after MessageDone — so the
claim as stated is false. -/
theorem stream_normalization_counterexample :
    openaiStreamResponse [] (some "read reset") =
      [ChatEventK.messageStart, ChatEventK.messageDone,
       ChatEventK.errorEvt "scanner error: read reset"] ∧
    normalizedStream (openaiStreamResponse [] (some "read reset")) = false := by
  refine ⟨rfl, by decide⟩

theorem agentReach_congr {mgr : Option Manager} {mem mem2 : List Message}
    {ph : AgentPhase} (h : AgentReach mgr ⟨mem, ph⟩) (heq : mem = mem2) :
    AgentReach mgr ⟨mem2, ph⟩ := heq ▸ h

theorem agentReach_iteration {mgr : Option Manager} {mem : List Message} {k : Nat}
    (h : AgentReach mgr ⟨mem, .iterStart k⟩) (hk : k < 10) (tid out : String)
    (hprep : (agentContextStep mgr (Except.ok "") mem).memoryAfter = mem) :
    AgentReach mgr
      ⟨mem ++ [{ role := .assistant, content := [.toolUse tid "b" none] },
               { role := .tool, content := [.toolResult tid out false] }],
        .iterStart (k + 1)⟩ := by
  have h1 := h.step (AgentStep.prepare mem k (Except.ok "") hk)
  rw [hprep] at h1
  have h2 := h1.step
    (AgentStep.chatDone mem k [ContentBlock.toolUse tid "b" none] rfl)
  have h3 := h2.step
    (AgentStep.runTools
      (mem ++ [{ role := .assistant, content := [ContentBlock.toolUse tid "b" none] }])
      k [{ id := tid, name := "b", inputJSON := none }] [(out, false)]
      (by simp) rfl)
  exact agentReach_congr h3 (by simp [toolResultsMessage, List.append_assoc])

/-- C2 (code bug): the tool-result linkage invariant fails on a reachable
memory state.  A turn that runs all 10 tool iterations ends, at the
iteration cap, with a tool message as the last message; the next turn's
first PrepareContext compacts the 22 accumulated messages, and the
preserved 6-message suffix begins with the tool result for `t8` whose
assistant tool-use message was summarized away.  The resulting memory
state — reachable in the modelled agent loop with a provider that answers
each request with one tool call — contains a ToolResult block whose
`tool_use_id` matches no earlier assistant ToolUse id. -/
theorem memory_linkage_violated_on_reachable_state :
    AgentReach (some c2Manager) { memory := c2BadMemory, phase := .prepared 0 } ∧
    agentContextStep (some c2Manager) (Except.ok "SUM") c2MemFull =
      { memoryAfter := c2BadMemory, requestMessages := c2BadMemory, replaced := true } ∧
    linked c2BadMemory = false := by
  refine ⟨?_, by decide, by decide⟩
  · have h0 : AgentReach (some c2Manager) ⟨[], .idle⟩ := AgentReach.init
    have h1 := h0.step (AgentStep.userTurn [] "")
    have h2 := agentReach_iteration h1 (by decide) "t1" "" (by decide)
    have h3 := agentReach_iteration h2 (by decide) "t2" "" (by decide)
    have h4 := agentReach_iteration h3 (by decide) "t3" "" (by decide)
    have h5 := agentReach_iteration h4 (by decide) "t4" "" (by decide)
    have h6 := agentReach_iteration h5 (by decide) "t5" "" (by decide)
    have h7 := agentReach_iteration h6 (by decide) "t6" "" (by decide)
    have h8 := agentReach_iteration h7 (by decide) "t7" "" (by decide)
    have h9 := agentReach_iteration h8 (by decide) "t8" "" (by decide)
    have h10 := agentReach_iteration h9 (by decide) "t9" "" (by decide)
    have h11 := agentReach_iteration h10 (by decide) "t10" "" (by decide)
    have h12 := h11.step (AgentStep.iterCap _)
    have h13 := h12.step (AgentStep.userTurn _ "")
    have h14 := h13.step (AgentStep.prepare _ 0 (Except.ok "SUM") (by decide))
    exact agentReach_congr h14 (by decide)

end Potus
